import Mathlib

/-!
A shallow embedding of the `rmsync` Go package (file `rmsync.go`) and proofs
about its synchronization logic.

The package reconciles a caller-supplied list of desired PDF files against
the documents already present on a reMarkable tablet's metadata store, and
fetches/uploads the missing ones.

Modelling conventions:
- Go errors are modelled as strings (`GoError`); a Go function returning
  `(T, error)` becomes `Except GoError T`.
- Raw file contents (`[]byte`) are lists of byte values (`Bytes`).
- External effects (the filesystem walk, `ioutil.ReadFile`, `json.Unmarshal`,
  `os.Stat`, the HTTP download, and the HTTP layer under the uploader) are
  supplied by an environment `Env`; each definition below mirrors one Go
  function of the source, threading the environment explicitly.
- The observable side effects of `Sync` (which fetch and upload calls it
  performs, with which arguments, in which order) are returned as an explicit
  event trace alongside the outcome.
-/

namespace Rmsync

/-- Go `error` values, modelled by their message. -/
abbrev GoError := String

/-- Go `[]byte`, modelled as a list of byte values. -/
abbrev Bytes := List Nat

/-- Go struct `Metadata` of `rmsync.go` (the JSON metadata record schema).
Fields are named after the struct's JSON tags, because `Type` (the Go field
name) is a Lean keyword. -/
structure Metadata where
  deleted : Bool
  lastModified : String
  metadatamodified : Bool
  modified : Bool
  parent : String
  pinned : Bool
  synced : Bool
  type : String
  version : Int
  visibleName : String
deriving DecidableEq, Repr

/-- Go struct `RemarkableFile` with fields `Filename` and `VisibleName`. -/
structure RemarkableFile where
  Filename : String
  VisibleName : String
deriving DecidableEq, Repr

/-- Go struct `FileToSync` with fields `Filename` and `Url`. -/
structure FileToSync where
  Filename : String
  Url : String
deriving DecidableEq, Repr

/-- Helper for `filepath.Ext`: scan the reversed character list of the path;
`acc` holds the characters already passed, in forward order. Stops at the
first `'.'` (the final dot of the path) or at a path separator. -/
def extFromRev : List Char → List Char → Option (List Char)
  | [], _ => none
  | c :: rest, acc =>
    if c = '/' then none
    else if c = '.' then some ('.' :: acc)
    else extFromRev rest (c :: acc)

/-- Go `filepath.Ext`: the suffix beginning at the final dot in the final
slash-separated element of the path; empty when there is no dot. -/
def filepathExt (p : String) : String :=
  match extFromRev p.data.reverse [] with
  | none => ""
  | some cs => ⟨cs⟩

/-- Go `strings.HasSuffix(s, suf)`:
`len(s) >= len(suf) && s[len(s)-len(suf):] == suf`, at character level. -/
def stringsHasSuffix (s suf : String) : Bool :=
  suf.data.length ≤ s.data.length &&
    s.data.drop (s.data.length - suf.data.length) == suf.data

/-- Go `strings.TrimSuffix`: drop the suffix when present, else unchanged. -/
def stringsTrimSuffix (s suf : String) : String :=
  if stringsHasSuffix s suf then ⟨s.data.take (s.data.length - suf.data.length)⟩
  else s

/-- The sibling content path of a metadata file, from `GetPdfFiles`:
`strings.TrimSuffix(filename, filepath.Ext(filename)) + ".pdf"`. -/
def pdfFilename (filename : String) : String :=
  stringsTrimSuffix filename (filepathExt filename) ++ ".pdf"

/-- One callback invocation of `filepath.Walk`: the visited path, whether it
is a directory, and the error argument passed to the callback (if any). -/
structure WalkEntry where
  path : String
  isDir : Bool
  err : Option GoError
deriving DecidableEq, Repr

/-- The behaviour of the external HTTP layer during one `UploadPdfToTablet`
call: whether `writer.CreateFormFile`, `writer.Close`, `http.NewRequest` and
`myClient.Do` fail, and with which error. -/
structure UploadEnv where
  createFormFileErr : Option GoError
  closeErr : Option GoError
  newRequestErr : Option GoError
  doErr : Option GoError
deriving DecidableEq, Repr

/-- The external world one call into the package runs against: the walk of
`BaseDir`, file reads, JSON decoding, `os.Stat` probes, HTTP downloads, and
the HTTP layer each upload call sees. `statNotExist p` is true when
`os.Stat(p)` fails with an error satisfying `os.IsNotExist`. -/
structure Env where
  walkEntries : List WalkEntry
  readFile : String → Except GoError String
  unmarshal : String → Except GoError Metadata
  statNotExist : String → Bool
  download : String → Except GoError Bytes
  upload : Bytes → String → UploadEnv

/-- The callback loop of `getMetadataFilenames`: a callback error aborts the
walk; directories and paths whose extension is not `.metadata` are skipped;
remaining paths are collected in visit order. -/
def walkCollect : List WalkEntry → Except GoError (List String)
  | [] => .ok []
  | e :: rest =>
    match e.err with
    | some er => .error er
    | none =>
      if e.isDir || filepathExt e.path != ".metadata" then walkCollect rest
      else
        match walkCollect rest with
        | .error er => .error er
        | .ok tail => .ok (e.path :: tail)

/-- Function `getMetadataFilenames` of `rmsync.go`. -/
def getMetadataFilenames (env : Env) : Except GoError (List String) :=
  walkCollect env.walkEntries

/-- The shared per-file body of both scan loops: `ioutil.ReadFile` then
`json.Unmarshal`, each failure returned immediately. -/
def readMetadata (env : Env) (filename : String) : Except GoError Metadata :=
  match env.readFile filename with
  | .error e => .error e
  | .ok filecontent => env.unmarshal filecontent

/-- The loop of `GetDirectoriesMetadataFiles`: records with
`Type == "CollectionType"` contribute `{filename, visibleName}`; the first
read or decode failure aborts with that error and no partial list. -/
def directoriesLoop (env : Env) : List String → Except GoError (List RemarkableFile)
  | [] => .ok []
  | filename :: rest =>
    match readMetadata env filename with
    | .error e => .error e
    | .ok metadata =>
      match directoriesLoop env rest with
      | .error e => .error e
      | .ok tail =>
        if metadata.type = "CollectionType" then
          .ok (⟨filename, metadata.visibleName⟩ :: tail)
        else .ok tail

/-- Function `GetDirectoriesMetadataFiles` of `rmsync.go`. -/
def GetDirectoriesMetadataFiles (env : Env) : Except GoError (List RemarkableFile) :=
  match getMetadataFilenames env with
  | .error e => .error e
  | .ok filenames => directoriesLoop env filenames

/-- The loop of `GetPdfFiles`: records with `Type == "DocumentType"`
contribute `{pdfFilename, visibleName}` when `os.Stat` on the sibling `.pdf`
path does not fail with a not-exist error; the first read or decode failure
aborts with that error and no partial list. -/
def pdfFilesLoop (env : Env) : List String → Except GoError (List RemarkableFile)
  | [] => .ok []
  | filename :: rest =>
    match readMetadata env filename with
    | .error e => .error e
    | .ok metadata =>
      match pdfFilesLoop env rest with
      | .error e => .error e
      | .ok tail =>
        if metadata.type = "DocumentType" then
          if env.statNotExist (pdfFilename filename) = false then
            .ok (⟨pdfFilename filename, metadata.visibleName⟩ :: tail)
          else .ok tail
        else .ok tail

/-- Function `GetPdfFiles` of `rmsync.go`. -/
def GetPdfFiles (env : Env) : Except GoError (List RemarkableFile) :=
  match getMetadataFilenames env with
  | .error e => .error e
  | .ok filenames => pdfFilesLoop env filenames

/-- Function `createRemarkableFileMap`: the Go map keyed by `VisibleName` with empty
struct values is used only for key membership, so it is modelled by its key
list; membership is `List.contains`. -/
def createRemarkableFileMap (files : List RemarkableFile) : List String :=
  files.map (·.VisibleName)

/-- One part of a multipart form body: field name, file name, payload. -/
structure Part where
  fieldname : String
  filename : String
  content : Bytes
deriving DecidableEq, Repr

/-- The buffer-backed `multipart.Writer`, abstracted to the list of parts
written into the body so far. -/
structure MultipartWriter where
  parts : List Part
deriving DecidableEq, Repr

/-- Go call `multipart.NewWriter(body)`: an empty body. -/
def multipartNewWriter : MultipartWriter := ⟨[]⟩

/-- Go call `writer.CreateFormFile(fieldname, filename)`: on success appends a new
empty file part with those names. -/
def createFormFile (ue : UploadEnv) (w : MultipartWriter) (fieldname filename : String) :
    Except GoError MultipartWriter :=
  match ue.createFormFileErr with
  | some e => .error e
  | none => .ok ⟨w.parts ++ [⟨fieldname, filename, []⟩]⟩

/-- Go call `part.Write(contents)`: appends the bytes to the most recently created
part's payload. -/
def partWrite (w : MultipartWriter) (contents : Bytes) : MultipartWriter :=
  match w.parts.getLast? with
  | none => w
  | some p => ⟨w.parts.dropLast ++ [⟨p.fieldname, p.filename, p.content ++ contents⟩]⟩

/-- How one `UploadPdfToTablet` call ends: returns `nil`, returns an error,
or crashes (a nil dereference). -/
inductive UploadResult where
  | ok : UploadResult
  | fail : GoError → UploadResult
  | crash : UploadResult
deriving DecidableEq, Repr

/-- Function `UploadPdfToTablet` of `rmsync.go`. The first component is the multipart
body it built (as parts); the second is how the call ends.
In the source, `req, err := http.NewRequest(...)` is followed by three
`req.Header.Set` calls BEFORE `if err != nil` is checked; when `NewRequest`
fails it returns a nil request, so the header write dereferences nil and the
call crashes instead of reaching its own error check. -/
def UploadPdfToTablet (ue : UploadEnv) (fileContents : Bytes) (filename : String) :
    List Part × UploadResult :=
  let writer := multipartNewWriter
  match createFormFile ue writer "file" filename with
  | .error e => (writer.parts, .fail e)
  | .ok writer1 =>
    let writer2 := partWrite writer1 fileContents
    match ue.closeErr with
    | some e => (writer2.parts, .fail e)
    | none =>
      match ue.newRequestErr with
      | some _ => (writer2.parts, .crash)
      | none =>
        match ue.doErr with
        | some e => (writer2.parts, .fail e)
        | none => (writer2.parts, .ok)

/-- An observable network call `Sync` performs: one `downloadPdfFile(url)`
or one `UploadPdfToTablet(contents, filename)`. -/
inductive SyncEvent where
  | fetch : String → SyncEvent
  | upload : Bytes → String → SyncEvent
deriving DecidableEq, Repr

/-- How one `Sync` call ends. -/
inductive SyncOutcome where
  | ok : SyncOutcome
  | fail : GoError → SyncOutcome
  | crash : SyncOutcome
deriving DecidableEq, Repr

/-- The loop of `Sync`: items whose `Filename` is a key of the map are
skipped; otherwise the item is downloaded and uploaded, and the first failure
aborts the loop. Returns the trace of calls performed and the outcome. -/
def syncLoop (env : Env) (pdfFileMap : List String) :
    List FileToSync → List SyncEvent × SyncOutcome
  | [] => ([], .ok)
  | item :: rest =>
    if pdfFileMap.contains item.Filename then
      syncLoop env pdfFileMap rest
    else
      match env.download item.Url with
      | .error e => ([.fetch item.Url], .fail e)
      | .ok fileContents =>
        match (UploadPdfToTablet (env.upload fileContents item.Filename)
            fileContents item.Filename).2 with
        | .fail e => ([.fetch item.Url, .upload fileContents item.Filename], .fail e)
        | .crash => ([.fetch item.Url, .upload fileContents item.Filename], .crash)
        | .ok =>
          let r := syncLoop env pdfFileMap rest
          (.fetch item.Url :: .upload fileContents item.Filename :: r.1, r.2)

/-- Function `Sync` of `rmsync.go`: scan the metadata store, build the name map, then
run the loop. Returns the trace of fetch/upload calls and the outcome. -/
def Sync (env : Env) (files : List FileToSync) : List SyncEvent × SyncOutcome :=
  match GetPdfFiles env with
  | .error e => ([], .fail e)
  | .ok pdfFiles => syncLoop env (createRemarkableFileMap pdfFiles) files

/-! ## Concrete fixtures

Small closed environments used to instantiate the theorems below on
concrete inputs. -/

/-- An upload environment in which every external call succeeds. -/
def ueOk : UploadEnv := ⟨none, none, none, none⟩

/-- A device whose metadata walk finds nothing; downloads succeed. -/
def envEmpty : Env where
  walkEntries := []
  readFile := fun _ => .error "no such file"
  unmarshal := fun _ => .error "invalid json"
  statNotExist := fun _ => true
  download := fun _ => .ok [7, 8]
  upload := fun _ _ => ueOk

/-- Like `envEmpty` but every download fails. -/
def envNetDown : Env :=
  { envEmpty with download := fun _ => .error "connection refused" }

/-- Metadata record of a collection named `Notes`. -/
def mdDir : Metadata :=
  ⟨false, "10", false, false, "", false, true, "CollectionType", 1, "Notes"⟩

/-- Metadata record of a document named `Report` (content file present). -/
def mdDoc : Metadata :=
  ⟨false, "11", false, false, "", false, true, "DocumentType", 1, "Report"⟩

/-- Metadata record of a document named `Orphan` (no content file). -/
def mdOrphan : Metadata :=
  ⟨false, "12", false, false, "", false, true, "DocumentType", 1, "Orphan"⟩

/-- Assigns each fixture metadata path its record. -/
def mdOf (f : String) : Metadata :=
  if f = "/x/c.metadata" then mdDir
  else if f = "/x/a.metadata" then mdDoc
  else mdOrphan

/-- A device holding the `Notes` collection, the `Report` document with its
content file at `/x/a.pdf`, and an orphan document metadata file whose
content file is absent. -/
def envScan : Env where
  walkEntries :=
    [⟨"/x", true, none⟩, ⟨"/x/c.metadata", false, none⟩,
      ⟨"/x/a.metadata", false, none⟩, ⟨"/x/o.metadata", false, none⟩]
  readFile := fun p =>
    if p = "/x/c.metadata" then .ok "dirjson"
    else if p = "/x/a.metadata" then .ok "docjson"
    else if p = "/x/o.metadata" then .ok "orphanjson"
    else .error "no such file"
  unmarshal := fun c =>
    if c = "dirjson" then .ok mdDir
    else if c = "docjson" then .ok mdDoc
    else if c = "orphanjson" then .ok mdOrphan
    else .error "invalid json"
  statNotExist := fun p => p != "/x/a.pdf"
  download := fun _ => .ok [7, 8]
  upload := fun _ _ => ueOk

/-- Like `envScan` but with one more metadata file whose contents do not
decode as JSON. -/
def envScanBad : Env :=
  { envScan with
    walkEntries := envScan.walkEntries ++ [⟨"/x/z.metadata", false, none⟩]
    readFile := fun p =>
      if p = "/x/z.metadata" then .ok "garbage" else envScan.readFile p }

/-! ## Helper lemmas about the sync loop -/

/-- Items whose name is a key of the map are skipped entirely. -/
theorem syncLoop_cons_present (env : Env) (m : List String)
    (item : FileToSync) (rest : List FileToSync) (hm : item.Filename ∈ m) :
    syncLoop env m (item :: rest) = syncLoop env m rest := by
  simp [syncLoop, hm]

/-- An absent item whose download and upload both succeed contributes its
fetch and upload events and the loop continues. -/
theorem syncLoop_cons_success (env : Env) (m : List String)
    (item : FileToSync) (rest : List FileToSync) (b : Bytes)
    (hm : item.Filename ∉ m) (hd : env.download item.Url = .ok b)
    (hu : (UploadPdfToTablet (env.upload b item.Filename) b item.Filename).2 =
      UploadResult.ok) :
    syncLoop env m (item :: rest) =
      (SyncEvent.fetch item.Url :: SyncEvent.upload b item.Filename ::
        (syncLoop env m rest).1, (syncLoop env m rest).2) := by
  simp [syncLoop, hm, hd, hu]

/-- An absent item whose download fails aborts the loop with that error. -/
theorem syncLoop_cons_download_fails (env : Env) (m : List String)
    (item : FileToSync) (rest : List FileToSync) (e : GoError)
    (hm : item.Filename ∉ m) (hd : env.download item.Url = .error e) :
    syncLoop env m (item :: rest) =
      ([SyncEvent.fetch item.Url], SyncOutcome.fail e) := by
  simp [syncLoop, hm, hd]

/-- An absent item whose upload fails aborts the loop with that error. -/
theorem syncLoop_cons_upload_fails (env : Env) (m : List String)
    (item : FileToSync) (rest : List FileToSync) (b : Bytes) (e : GoError)
    (hm : item.Filename ∉ m) (hd : env.download item.Url = .ok b)
    (hu : (UploadPdfToTablet (env.upload b item.Filename) b item.Filename).2 =
      UploadResult.fail e) :
    syncLoop env m (item :: rest) =
      ([SyncEvent.fetch item.Url, SyncEvent.upload b item.Filename],
        SyncOutcome.fail e) := by
  simp [syncLoop, hm, hd, hu]

/-- When every item absent from the map downloads and uploads cleanly, the
loop's trace is precisely fetch-then-upload for the absent items, in list
order, and the loop succeeds. -/
theorem syncLoop_success (env : Env) (m : List String) (dl : String → Bytes)
    (files : List FileToSync)
    (h : ∀ item ∈ files, m.contains item.Filename = false →
      env.download item.Url = .ok (dl item.Url) ∧
      (UploadPdfToTablet (env.upload (dl item.Url) item.Filename)
        (dl item.Url) item.Filename).2 = .ok) :
    syncLoop env m files =
      ((files.filter (fun item => ! m.contains item.Filename)).flatMap
        (fun item => [.fetch item.Url, .upload (dl item.Url) item.Filename]), .ok) := by
  induction files with
  | nil => simp [syncLoop]
  | cons item rest ih =>
    have hrest := fun i hi => h i (List.mem_cons_of_mem _ hi)
    cases hc : m.contains item.Filename with
    | true =>
      have hm : item.Filename ∈ m := by simpa using hc
      simp [syncLoop, hm, List.filter_cons, ih hrest]
    | false =>
      have hm : item.Filename ∉ m := by simpa using hc
      obtain ⟨hd, hu⟩ := h item (List.mem_cons_self _ _) hc
      simp [syncLoop, hm, hd, hu, List.filter_cons, ih hrest]

/-- Removing the items whose name is a key of the map before the loop does
not change the loop's behaviour at all: present items are dead weight. -/
theorem syncLoop_filter_absent (env : Env) (m : List String)
    (files : List FileToSync) :
    syncLoop env m files =
      syncLoop env m (files.filter (fun item => ! m.contains item.Filename)) := by
  induction files with
  | nil => rfl
  | cons item rest ih =>
    cases hc : m.contains item.Filename with
    | true =>
      have hm : item.Filename ∈ m := by simpa using hc
      rw [syncLoop_cons_present env m item rest hm, ih]
      simp [List.filter_cons, hm]
    | false =>
      have hm : item.Filename ∉ m := by simpa using hc
      have hfc : (item :: rest).filter (fun i => ! m.contains i.Filename) =
          item :: rest.filter (fun i => ! m.contains i.Filename) := by
        simp [List.filter_cons, hm]
      rw [hfc]
      cases hd : env.download item.Url with
      | error e =>
        rw [syncLoop_cons_download_fails env m item rest e hm hd,
          syncLoop_cons_download_fails env m item _ e hm hd]
      | ok b =>
        cases hu : (UploadPdfToTablet (env.upload b item.Filename)
            b item.Filename).2 with
        | ok =>
          rw [syncLoop_cons_success env m item rest b hm hd hu,
            syncLoop_cons_success env m item _ b hm hd hu, ih]
        | fail e =>
          rw [syncLoop_cons_upload_fails env m item rest b e hm hd hu,
            syncLoop_cons_upload_fails env m item _ b e hm hd hu]
        | crash =>
          simp [syncLoop, hm, hd, hu, ih]

/-- Fail-fast: with every earlier item present or cleanly transferred, the
first failing item seals the loop's result; items after it are never looked
at, so the result is the same whatever follows. -/
theorem syncLoop_failfast (env : Env) (m : List String)
    (pre : List FileToSync) (bad : FileToSync) (e : GoError)
    (hpre : ∀ item ∈ pre, item.Filename ∈ m ∨
      ∃ b, env.download item.Url = .ok b ∧
        (UploadPdfToTablet (env.upload b item.Filename) b item.Filename).2 =
          UploadResult.ok)
    (hm : bad.Filename ∉ m)
    (hfail : env.download bad.Url = .error e ∨
      ∃ b, env.download bad.Url = .ok b ∧
        (UploadPdfToTablet (env.upload b bad.Filename) b bad.Filename).2 =
          UploadResult.fail e) :
    ∀ post, syncLoop env m (pre ++ bad :: post) = syncLoop env m (pre ++ [bad]) ∧
      (syncLoop env m (pre ++ [bad])).2 = SyncOutcome.fail e := by
  induction pre with
  | nil =>
    intro post
    rcases hfail with hd | ⟨b, hd, hu⟩
    · rw [List.nil_append, List.nil_append,
        syncLoop_cons_download_fails env m bad post e hm hd,
        syncLoop_cons_download_fails env m bad [] e hm hd]
      exact ⟨rfl, rfl⟩
    · rw [List.nil_append, List.nil_append,
        syncLoop_cons_upload_fails env m bad post b e hm hd hu,
        syncLoop_cons_upload_fails env m bad [] b e hm hd hu]
      exact ⟨rfl, rfl⟩
  | cons item rest ih =>
    intro post
    have hrest := fun i hi => hpre i (List.mem_cons_of_mem _ hi)
    have ih' := ih hrest post
    rw [List.cons_append, List.cons_append]
    rcases hpre item (List.mem_cons_self _ _) with hin | ⟨b, hd, hu⟩
    · rw [syncLoop_cons_present env m item _ hin,
        syncLoop_cons_present env m item _ hin]
      exact ih'
    · by_cases hin : item.Filename ∈ m
      · rw [syncLoop_cons_present env m item _ hin,
          syncLoop_cons_present env m item _ hin]
        exact ih'
      · rw [syncLoop_cons_success env m item _ b hin hd hu,
          syncLoop_cons_success env m item _ b hin hd hu, ih'.1]
        exact ⟨rfl, ih'.2⟩

/-- With the map missing the name `n` and every absent item transferring
cleanly, the loop performs exactly one upload named `n` per request named
`n`: nothing deduplicates inside the batch. -/
theorem syncLoop_upload_count (env : Env) (m : List String) (dl : String → Bytes)
    (n : String) (files : List FileToSync)
    (hn : n ∉ m)
    (h : ∀ item ∈ files, m.contains item.Filename = false →
      env.download item.Url = .ok (dl item.Url) ∧
      (UploadPdfToTablet (env.upload (dl item.Url) item.Filename)
        (dl item.Url) item.Filename).2 = UploadResult.ok) :
    ((syncLoop env m files).1.countP
        (fun ev => match ev with
          | SyncEvent.upload _ f => f == n
          | _ => false)) =
      files.countP (fun item => item.Filename == n) := by
  induction files with
  | nil => rfl
  | cons item rest ih =>
    have hrest := fun i hi => h i (List.mem_cons_of_mem _ hi)
    cases hc : m.contains item.Filename with
    | true =>
      have hin : item.Filename ∈ m := by simpa using hc
      have hne : (item.Filename == n) = false := by
        simp only [beq_eq_false_iff_ne, ne_eq]
        intro hcontra
        exact hn (hcontra ▸ hin)
      rw [syncLoop_cons_present env m item rest hin, ih hrest,
        List.countP_cons, hne]
      simp
    | false =>
      have hin : item.Filename ∉ m := by simpa using hc
      obtain ⟨hd, hu⟩ := h item (List.mem_cons_self _ _) hc
      rw [syncLoop_cons_success env m item rest _ hin hd hu]
      simp only [List.countP_cons, ih hrest]
      simp

/-! ## Helper lemmas about the metadata scans -/

/-- When every listed file reads and decodes, the collections loop returns
exactly one entry per record typed `CollectionType`, in scan order. -/
theorem directoriesLoop_success (env : Env) (md : String → Metadata)
    (fns : List String) (h : ∀ f ∈ fns, readMetadata env f = .ok (md f)) :
    directoriesLoop env fns = .ok (fns.flatMap (fun f =>
      if (md f).type = "CollectionType" then [⟨f, (md f).visibleName⟩] else [])) := by
  induction fns with
  | nil => rfl
  | cons f rest ih =>
    have hf := h f (List.mem_cons_self _ _)
    have ih' := ih (fun g hg => h g (List.mem_cons_of_mem _ hg))
    by_cases ht : (md f).type = "CollectionType" <;>
      simp [directoriesLoop, hf, ih', ht]

/-- When every listed file reads and decodes, the documents loop returns
exactly one entry per record typed `DocumentType` whose sibling content file
exists, in scan order. -/
theorem pdfFilesLoop_success (env : Env) (md : String → Metadata)
    (fns : List String) (h : ∀ f ∈ fns, readMetadata env f = .ok (md f)) :
    pdfFilesLoop env fns = .ok (fns.flatMap (fun f =>
      if (md f).type = "DocumentType" ∧ env.statNotExist (pdfFilename f) = false
      then [⟨pdfFilename f, (md f).visibleName⟩] else [])) := by
  induction fns with
  | nil => rfl
  | cons f rest ih =>
    have hf := h f (List.mem_cons_self _ _)
    have ih' := ih (fun g hg => h g (List.mem_cons_of_mem _ hg))
    by_cases ht : (md f).type = "DocumentType"
    · cases hs : env.statNotExist (pdfFilename f) <;>
        simp [pdfFilesLoop, hf, ih', ht, hs]
    · simp [pdfFilesLoop, hf, ih', ht]

/-- A file that fails to read or decode aborts the collections loop with
that error, whatever precedes or follows it. -/
theorem directoriesLoop_error (env : Env) (md : String → Metadata)
    (pre : List String) (bad : String) (post : List String) (e : GoError)
    (hpre : ∀ f ∈ pre, readMetadata env f = .ok (md f))
    (hbad : readMetadata env bad = .error e) :
    directoriesLoop env (pre ++ bad :: post) = .error e := by
  induction pre with
  | nil => simp [directoriesLoop, hbad]
  | cons f rest ih =>
    have hf := hpre f (List.mem_cons_self _ _)
    have ih' := ih (fun g hg => hpre g (List.mem_cons_of_mem _ hg))
    simp [directoriesLoop, hf, ih']

/-- A file that fails to read or decode aborts the documents loop with that
error, whatever precedes or follows it. -/
theorem pdfFilesLoop_error (env : Env) (md : String → Metadata)
    (pre : List String) (bad : String) (post : List String) (e : GoError)
    (hpre : ∀ f ∈ pre, readMetadata env f = .ok (md f))
    (hbad : readMetadata env bad = .error e) :
    pdfFilesLoop env (pre ++ bad :: post) = .error e := by
  induction pre with
  | nil => simp [pdfFilesLoop, hbad]
  | cons f rest ih =>
    have hf := hpre f (List.mem_cons_self _ _)
    have ih' := ih (fun g hg => hpre g (List.mem_cons_of_mem _ hg))
    simp [pdfFilesLoop, hf, ih']

/-! ## The claims -/

/-- C1: for every request list and on-device inventory, when every missing
request's download and upload succeed, `Sync` triggers fetch-then-upload for
exactly the requests whose name is absent from the inventory, in
caller-supplied order, uploading under the request's own name; a request
whose name is present contributes no fetch and no upload to the trace. -/
theorem sync_transfers_exactly_missing_requests (env : Env)
    (pdfs : List RemarkableFile) (dl : String → Bytes) (files : List FileToSync)
    (hscan : GetPdfFiles env = .ok pdfs)
    (h : ∀ item ∈ files,
      (createRemarkableFileMap pdfs).contains item.Filename = false →
      env.download item.Url = .ok (dl item.Url) ∧
      (UploadPdfToTablet (env.upload (dl item.Url) item.Filename)
        (dl item.Url) item.Filename).2 = UploadResult.ok) :
    Sync env files =
      ((files.filter (fun item =>
          ! (createRemarkableFileMap pdfs).contains item.Filename)).flatMap
        (fun item => [SyncEvent.fetch item.Url,
          SyncEvent.upload (dl item.Url) item.Filename]), SyncOutcome.ok) := by
  unfold Sync
  rw [hscan]
  exact syncLoop_success env _ dl files h

/-- Witness for C1: an empty device and one request; `Sync` fetches it and
uploads it under the request's name. -/
theorem sync_transfers_exactly_missing_requests_witness :
    Sync envEmpty [⟨"NewDoc", "http://y"⟩] =
      ([SyncEvent.fetch "http://y", SyncEvent.upload [7, 8] "NewDoc"],
        SyncOutcome.ok) := by
  have h := sync_transfers_exactly_missing_requests envEmpty [] (fun _ => [7, 8])
    [⟨"NewDoc", "http://y"⟩] rfl (fun item _ _ => ⟨rfl, rfl⟩)
  simpa using h

/-- C2: if the fetch or the upload of some missing request fails (and every
earlier request was either present or transferred cleanly), `Sync` returns
that error, and its whole behaviour is independent of the requests after the
failing one: no later fetch or upload is attempted. -/
theorem sync_failfast_stops_batch (env : Env) (pdfs : List RemarkableFile)
    (pre : List FileToSync) (bad : FileToSync) (e : GoError)
    (hscan : GetPdfFiles env = .ok pdfs)
    (hpre : ∀ item ∈ pre, item.Filename ∈ createRemarkableFileMap pdfs ∨
      ∃ b, env.download item.Url = .ok b ∧
        (UploadPdfToTablet (env.upload b item.Filename) b item.Filename).2 =
          UploadResult.ok)
    (hm : bad.Filename ∉ createRemarkableFileMap pdfs)
    (hfail : env.download bad.Url = .error e ∨
      ∃ b, env.download bad.Url = .ok b ∧
        (UploadPdfToTablet (env.upload b bad.Filename) b bad.Filename).2 =
          UploadResult.fail e) :
    ∀ post, Sync env (pre ++ bad :: post) = Sync env (pre ++ [bad]) ∧
      (Sync env (pre ++ bad :: post)).2 = SyncOutcome.fail e := by
  intro post
  have h := syncLoop_failfast env (createRemarkableFileMap pdfs) pre bad e
    hpre hm hfail post
  have h1 : Sync env (pre ++ bad :: post) =
      syncLoop env (createRemarkableFileMap pdfs) (pre ++ bad :: post) := by
    unfold Sync; rw [hscan]
  have h2 : Sync env (pre ++ [bad]) =
      syncLoop env (createRemarkableFileMap pdfs) (pre ++ [bad]) := by
    unfold Sync; rw [hscan]
  refine ⟨?_, ?_⟩
  · rw [h1, h2, h.1]
  · rw [h1, h.1]
    exact h.2

/-- Witness for C2: the first request's fetch fails; the result equals the
result of the batch without the later request, and the batch fails with the
fetch error. -/
theorem sync_failfast_stops_batch_witness :
    Sync envNetDown [⟨"NewDoc", "http://y"⟩, ⟨"Other", "http://z"⟩] =
      Sync envNetDown [⟨"NewDoc", "http://y"⟩] ∧
    (Sync envNetDown [⟨"NewDoc", "http://y"⟩, ⟨"Other", "http://z"⟩]).2 =
      SyncOutcome.fail "connection refused" := by
  have h := sync_failfast_stops_batch envNetDown [] [] ⟨"NewDoc", "http://y"⟩
    "connection refused" rfl (fun i hi => absurd hi (List.not_mem_nil i))
    (List.not_mem_nil _) (Or.inl rfl) [⟨"Other", "http://z"⟩]
  simpa using h

/-- C3: with every metadata file decoding, `GetPdfFiles` returns (with no
error) exactly one entry per `DocumentType` record whose sibling `.pdf`
content file exists; such an entry appears whenever the content file exists,
every returned entry stems from such a record, and a `DocumentType` record
without its content file is silently excluded. -/
theorem getPdfFiles_entry_iff_content_exists (env : Env) (md : String → Metadata)
    (fns : List String)
    (hw : getMetadataFilenames env = .ok fns)
    (h : ∀ f ∈ fns, readMetadata env f = .ok (md f)) :
    GetPdfFiles env = .ok (fns.flatMap (fun f =>
      if (md f).type = "DocumentType" ∧ env.statNotExist (pdfFilename f) = false
      then [⟨pdfFilename f, (md f).visibleName⟩] else [])) ∧
    (∀ f ∈ fns, (md f).type = "DocumentType" →
      env.statNotExist (pdfFilename f) = false →
      ∃ l, GetPdfFiles env = .ok l ∧
        RemarkableFile.mk (pdfFilename f) (md f).visibleName ∈ l) ∧
    (∀ l, GetPdfFiles env = .ok l → ∀ r ∈ l, ∃ f ∈ fns,
      (md f).type = "DocumentType" ∧ env.statNotExist (pdfFilename f) = false ∧
      r = RemarkableFile.mk (pdfFilename f) (md f).visibleName) := by
  have hmain : GetPdfFiles env = pdfFilesLoop env fns := by
    unfold GetPdfFiles; rw [hw]
  rw [hmain, pdfFilesLoop_success env md fns h]
  refine ⟨rfl, ?_, ?_⟩
  · intro f hf ht hs
    exact ⟨_, rfl, List.mem_flatMap.mpr ⟨f, hf, by simp [ht, hs]⟩⟩
  · intro l hl r hr
    injection hl with hl
    subst hl
    obtain ⟨f, hf, hrf⟩ := List.mem_flatMap.mp hr
    by_cases hc : (md f).type = "DocumentType" ∧
        env.statNotExist (pdfFilename f) = false
    · rw [if_pos hc] at hrf
      obtain rfl := List.mem_singleton.mp hrf
      exact ⟨f, hf, hc.1, hc.2, rfl⟩
    · rw [if_neg hc] at hrf
      exact absurd hrf (List.not_mem_nil r)

/-- Witness for C3: a device with a collection, a document whose content
file exists, and an orphan document metadata without content; the documents
query returns exactly the one backed document and no error. -/
theorem getPdfFiles_entry_iff_content_exists_witness :
    GetPdfFiles envScan = .ok [⟨"/x/a.pdf", "Report"⟩] := by
  have h := getPdfFiles_entry_iff_content_exists envScan mdOf
    ["/x/c.metadata", "/x/a.metadata", "/x/o.metadata"] rfl
    (by intro f hf; fin_cases hf <;> rfl)
  exact h.1.trans rfl

/-- C4: with every metadata file decoding, `GetDirectoriesMetadataFiles`
returns exactly one entry per record whose `type` equals `"CollectionType"`,
carrying the metadata file's path and the record's `visibleName`; records of
every other type (including `"DocumentType"`) never appear. -/
theorem getDirectories_collection_type_only (env : Env) (md : String → Metadata)
    (fns : List String)
    (hw : getMetadataFilenames env = .ok fns)
    (h : ∀ f ∈ fns, readMetadata env f = .ok (md f)) :
    GetDirectoriesMetadataFiles env = .ok (fns.flatMap (fun f =>
      if (md f).type = "CollectionType"
      then [⟨f, (md f).visibleName⟩] else [])) ∧
    (∀ f ∈ fns, (md f).type = "CollectionType" →
      ∃ l, GetDirectoriesMetadataFiles env = .ok l ∧
        RemarkableFile.mk f (md f).visibleName ∈ l) ∧
    (∀ l, GetDirectoriesMetadataFiles env = .ok l → ∀ r ∈ l, ∃ f ∈ fns,
      (md f).type = "CollectionType" ∧
      r = RemarkableFile.mk f (md f).visibleName) := by
  have hmain : GetDirectoriesMetadataFiles env = directoriesLoop env fns := by
    unfold GetDirectoriesMetadataFiles; rw [hw]
  rw [hmain, directoriesLoop_success env md fns h]
  refine ⟨rfl, ?_, ?_⟩
  · intro f hf ht
    exact ⟨_, rfl, List.mem_flatMap.mpr ⟨f, hf, by simp [ht]⟩⟩
  · intro l hl r hr
    injection hl with hl
    subst hl
    obtain ⟨f, hf, hrf⟩ := List.mem_flatMap.mp hr
    by_cases hc : (md f).type = "CollectionType"
    · rw [if_pos hc] at hrf
      obtain rfl := List.mem_singleton.mp hrf
      exact ⟨f, hf, hc, rfl⟩
    · rw [if_neg hc] at hrf
      exact absurd hrf (List.not_mem_nil r)

/-- Witness for C4: on the same device, the collections query returns
exactly the one `CollectionType` record, with its path and visible name. -/
theorem getDirectories_collection_type_only_witness :
    GetDirectoriesMetadataFiles envScan = .ok [⟨"/x/c.metadata", "Notes"⟩] := by
  have h := getDirectories_collection_type_only envScan mdOf
    ["/x/c.metadata", "/x/a.metadata", "/x/o.metadata"] rfl
    (by intro f hf; fin_cases hf <;> rfl)
  exact h.1.trans rfl

/-- C5: a metadata file that fails to decode aborts both scans: each query
returns exactly that parse error and no partial list, whatever was scanned
before or after the malformed file. -/
theorem scan_aborts_on_parse_error (env : Env) (md : String → Metadata)
    (pre : List String) (bad : String) (post : List String)
    (c : String) (e : GoError)
    (hw : getMetadataFilenames env = .ok (pre ++ bad :: post))
    (hpre : ∀ f ∈ pre, readMetadata env f = .ok (md f))
    (hread : env.readFile bad = .ok c)
    (hparse : env.unmarshal c = .error e) :
    GetDirectoriesMetadataFiles env = .error e ∧ GetPdfFiles env = .error e := by
  have hbad : readMetadata env bad = .error e := by
    unfold readMetadata; rw [hread]; exact hparse
  constructor
  · unfold GetDirectoriesMetadataFiles; rw [hw]
    exact directoriesLoop_error env md pre bad post e hpre hbad
  · unfold GetPdfFiles; rw [hw]
    exact pdfFilesLoop_error env md pre bad post e hpre hbad

/-- Witness for C5: one malformed metadata file makes both queries return
the parse error, with none of the three well-formed records reported. -/
theorem scan_aborts_on_parse_error_witness :
    GetDirectoriesMetadataFiles envScanBad = .error "invalid json" ∧
    GetPdfFiles envScanBad = .error "invalid json" :=
  scan_aborts_on_parse_error envScanBad mdOf
    ["/x/c.metadata", "/x/a.metadata", "/x/o.metadata"] "/x/z.metadata" []
    "garbage" "invalid json" rfl
    (by intro f hf; fin_cases hf <;> rfl) rfl rfl

/-- C6: the inventory is not updated between iterations and nothing
deduplicates inside a batch: with a name absent from the inventory and every
missing request transferring cleanly, `Sync` performs exactly one upload
under that name per request bearing it — two same-named requests both
upload. -/
theorem sync_no_in_batch_dedup (env : Env) (pdfs : List RemarkableFile)
    (dl : String → Bytes) (n : String) (files : List FileToSync)
    (hscan : GetPdfFiles env = .ok pdfs)
    (hn : n ∉ createRemarkableFileMap pdfs)
    (h : ∀ item ∈ files,
      (createRemarkableFileMap pdfs).contains item.Filename = false →
      env.download item.Url = .ok (dl item.Url) ∧
      (UploadPdfToTablet (env.upload (dl item.Url) item.Filename)
        (dl item.Url) item.Filename).2 = UploadResult.ok) :
    ((Sync env files).1.countP (fun ev => match ev with
        | SyncEvent.upload _ f => f == n
        | _ => false)) =
      files.countP (fun item => item.Filename == n) := by
  unfold Sync
  rw [hscan]
  exact syncLoop_upload_count env _ dl n files hn h

/-- Witness for C6: two requests named `NewDoc` against an empty device;
both are uploaded. -/
theorem sync_no_in_batch_dedup_witness :
    ((Sync envEmpty [⟨"NewDoc", "http://y1"⟩, ⟨"NewDoc", "http://y2"⟩]).1.countP
      (fun ev => match ev with
        | SyncEvent.upload _ f => f == "NewDoc"
        | _ => false)) = 2 := by
  have h := sync_no_in_batch_dedup envEmpty [] (fun _ => [7, 8]) "NewDoc"
    [⟨"NewDoc", "http://y1"⟩, ⟨"NewDoc", "http://y2"⟩] rfl
    (List.not_mem_nil _) (fun item _ _ => ⟨rfl, rfl⟩)
  exact h.trans rfl

/-- C7 (divergence): when `http.NewRequest` reports an error, the source has
already run `req.Header.Set` on the nil request before its `if err != nil`
check, so the call crashes with a nil dereference instead of returning the
error — the claim that every failure path is surfaced as a returned error
fails on the request-construction path. -/
theorem uploadPdfToTablet_crashes_when_newRequest_fails :
    (UploadPdfToTablet ⟨none, none, some "request construction failed", none⟩
      [1, 2, 3] "doc.pdf").2 = UploadResult.crash := rfl

/-- C8: the multipart body built by `UploadPdfToTablet` holds exactly one
file part, under the fixed field name `"file"`, with the caller's filename
and a payload byte-for-byte equal to the input. -/
theorem upload_builds_single_exact_part (ue : UploadEnv) (fileContents : Bytes)
    (filename : String) (h : ue.createFormFileErr = none) :
    (UploadPdfToTablet ue fileContents filename).1 =
      [⟨"file", filename, fileContents⟩] := by
  unfold UploadPdfToTablet createFormFile multipartNewWriter
  rw [h]
  cases ue.closeErr <;> cases ue.newRequestErr <;> cases ue.doErr <;>
    simp [partWrite]

/-- Witness for C8 on concrete bytes and filename. -/
theorem upload_builds_single_exact_part_witness :
    (UploadPdfToTablet ueOk [0, 255, 10] "report.pdf").1 =
      [⟨"file", "report.pdf", [0, 255, 10]⟩] :=
  upload_builds_single_exact_part ueOk [0, 255, 10] "report.pdf" rfl

/-- C9: a request whose name is in the inventory at the start of a run
contributes nothing to that run: `Sync` behaves identically on the full
request list and on the list with the present requests removed. On a second
run over unchanged device state this means zero fetch and zero upload calls
for every request whose name is now in the inventory. -/
theorem sync_second_run_skips_present (env : Env) (pdfs : List RemarkableFile)
    (files : List FileToSync) (hscan : GetPdfFiles env = .ok pdfs) :
    Sync env files = Sync env (files.filter (fun item =>
      ! (createRemarkableFileMap pdfs).contains item.Filename)) := by
  have h1 : Sync env files =
      syncLoop env (createRemarkableFileMap pdfs) files := by
    unfold Sync; rw [hscan]
  have h2 : Sync env (files.filter (fun item =>
        ! (createRemarkableFileMap pdfs).contains item.Filename)) =
      syncLoop env (createRemarkableFileMap pdfs) (files.filter (fun item =>
        ! (createRemarkableFileMap pdfs).contains item.Filename)) := by
    unfold Sync; rw [hscan]
  rw [h1, h2]
  exact syncLoop_filter_absent env _ files

/-- Witness for C9: the device already holds `Report`, so a second run over
the same single request performs no fetch and no upload. -/
theorem sync_second_run_skips_present_witness :
    Sync envScan [⟨"Report", "http://x"⟩] = ([], SyncOutcome.ok) := by
  have h := sync_second_run_skips_present envScan [⟨"/x/a.pdf", "Report"⟩]
    [⟨"Report", "http://x"⟩] rfl
  exact h.trans rfl

/-- C10: on the empty request list `Sync` performs no fetch and no upload:
its trace is empty, it returns nil when the documents scan succeeds, and it
returns exactly the scan's error when the scan fails. -/
theorem sync_empty_requests (env : Env) :
    Sync env [] = ([], match GetPdfFiles env with
      | .ok _ => SyncOutcome.ok
      | .error e => SyncOutcome.fail e) := by
  cases hg : GetPdfFiles env <;> simp [Sync, hg, syncLoop]

end Rmsync
